import Mathlib

/-!
A shallow embedding of the scheduler core (`src/scheduler/core.py`) of the
DigonIO scheduler library, together with the parts of the `Job` interface the
core calls into.  Instants and durations are modelled as integer seconds,
priorities and weights as rationals.  The `Job` class itself lives in
`scheduler/job.py`, which is not part of the sources here; the few members of
it that the core uses are modelled from the specification and are marked as
such in their doc comments.
-/

namespace Sched

/-- Stored job disciplines (`JobType` in `scheduler/job.py`).  ONCE is not a
stored type; `Scheduler.once` maps onto these. -/
inductive JobType
  | CYCLIC
  | MINUTELY
  | HOURLY
  | DAILY
  | WEEKLY
deriving DecidableEq

/-- Weekday enumerants (`Trigger.Weekly.*` in `scheduler/trigger.py`). -/
inductive Weekday
  | monday
  | tuesday
  | wednesday
  | thursday
  | friday
  | saturday
  | sunday
deriving DecidableEq

/-- Runtime shapes a caller can pass as a single timing value: a
`dt.timedelta` (seconds), a `dt.time` (seconds within the day), a bare
`Weekday`, a `(Weekday, dt.time)` tuple, or a `dt.datetime` (an absolute
instant in seconds). -/
inductive TimingValue
  | duration (seconds : Int)
  | timeOfDay (secondsInDay : Nat)
  | weekday (w : Weekday)
  | weekdayTime (w : Weekday) (secondsInDay : Nat)
  | datetimeValue (instant : Int)
deriving DecidableEq

/-- A timing argument as passed to a registration method: a bare value or a
list of values. -/
inductive TimingInput
  | single (v : TimingValue)
  | listOf (vs : List TimingValue)
deriving DecidableEq

/-- Modelled from the spec: the `Job` record of `scheduler/job.py`.  `id`
models Python object identity (two distinct `Job` objects never compare
equal), `handle` is the opaque callback reference, `nextDue` is the cached
next-due instant (spec section 4.1); `tzinfo` is `none` for a naive job. -/
structure Job where
  id : Nat
  job_type : JobType
  timing : List TimingValue
  handle : Nat
  weight : ℚ
  tags : Finset String
  max_attempts : Nat
  attempts : Nat
  delay : Bool
  start : Option Int
  stop : Option Int
  tzinfo : Option Int
  nextDue : Int
deriving DecidableEq

/-- Modelled from the spec: `Job.timedelta(reference)` returns
`next_due - reference_instant` (spec section 4.1), in seconds. -/
def Job.timedelta (j : Job) (ref : Int) : Int :=
  j.nextDue - ref

/-- Modelled from the spec: `Job.has_attempts_remaining` is true if
`max_attempts == 0` or `attempts < max_attempts` (spec section 4.1). -/
def Job.has_attempts_remaining (j : Job) : Bool :=
  j.max_attempts == 0 || decide (j.attempts < j.max_attempts)

/-- Modelled from the spec: `Job._exec()` invokes the stored callback (opaque
to the core, so not modelled) and increments `attempts`. -/
def Job.execOnce (j : Job) : Job :=
  { j with attempts := j.attempts + 1 }

/-- Modelled from the spec: `Job._calc_next_exec(reference)` recomputes and
caches the next-due instant from the reference instant.  The per-discipline
computation of spec section 4.1 lives in `scheduler/job.py`; it is kept
abstract as the parameter `cnd` because no claim depends on its value. -/
def Job.calc_next_exec (cnd : Job → Int → Int) (j : Job) (ref : Int) : Job :=
  { j with nextDue := cnd j ref }

/-- Errors the scheduler core signals.  Each constructor stands for a
`SchedulerError` with a distinct, discipline-specific message (for example
`ONCE_TYPE_ERROR_MSG` in `core.py` names the union
`dt.datetime | dt.timedelta | Weekday | dt.time`); `keyErrorRemove` stands
for the `KeyError` of `set.remove` in `Scheduler.delete_job`. -/
inductive SchedulerErrorKind
  | cyclicTypeError
  | minutelyTypeError
  | hourlyTypeError
  | dailyTypeError
  | weeklyTypeError
  | onceTypeError
  | tzError
  | keyErrorRemove
deriving DecidableEq

/-- The scheduler state (`Scheduler.__init__` fields).  `jobs` models the
guarded set `self.__jobs` together with its (arbitrary but fixed) iteration
order; `nextId` supplies fresh object identities for newly created jobs. -/
structure Scheduler where
  max_exec : Nat
  tzinfo : Option Int
  priority_function : Int → Job → Nat → Nat → ℚ
  jobs : List Job
  n_threads : Nat
  nextId : Nat

/-- Embedding of `Scheduler.__init__` (`core.py` lines 88-110): stores the
configuration and the supplied job set, raising a timezone-mismatch
`SchedulerError` (`TZ_ERROR_MSG`) when some supplied job carries a tzinfo
different from the scheduler tzinfo. -/
def schedulerInit (max_exec : Nat) (tzinfo : Option Int)
    (priority_function : Int → Job → Nat → Nat → ℚ) (jobs : List Job)
    (n_threads : Nat) : Except SchedulerErrorKind Scheduler :=
  if jobs.all (fun j => j.tzinfo == tzinfo) then
    .ok { max_exec := max_exec, tzinfo := tzinfo,
          priority_function := priority_function, jobs := jobs,
          n_threads := n_threads,
          nextId := (jobs.map Job.id).foldr max 0 + 1 }
  else
    .error .tzError

/-- Embedding of `select_jobs_by_tag` (`core.py` lines 49-56): with `any_tag`
keep the jobs whose tag set meets `tags` (Python truthiness of
`tags & job.tags`), otherwise keep the jobs whose tag set contains `tags`
(`tags <= job.tags`). -/
def select_jobs_by_tag (jobs : List Job) (tags : Finset String)
    (any_tag : Bool) : List Job :=
  if any_tag then
    jobs.filter (fun j => decide (tags ∩ j.tags ≠ ∅))
  else
    jobs.filter (fun j => decide (tags ⊆ j.tags))

/-- Embedding of `Scheduler.get_jobs` (`core.py` lines 317-336).  The guard in
the source is `tags is None or tags == {}`; since `tags` is a `set` and `{}`
is the empty dict, `tags == {}` is always false, so only `tags is None`
(modelled as `none`) takes the copy-all branch and every supplied set,
including the empty one, is passed to `select_jobs_by_tag`. -/
def Scheduler.get_jobs (s : Scheduler) (tags : Option (Finset String))
    (any_tag : Bool) : List Job :=
  match tags with
  | none => s.jobs
  | some t => select_jobs_by_tag s.jobs t any_tag

/-- Embedding of the `Scheduler.jobs` property (`core.py` lines 338-349):
returns (a copy of) the current job set. -/
def Scheduler.jobsProperty (s : Scheduler) : List Job :=
  s.jobs

/-- Embedding of `Scheduler.delete_job` (`core.py` lines 181-191):
`self.__jobs.remove(job)` removes the job object (identity equality) and
raises `KeyError` when it is not in the set. -/
def Scheduler.delete_job (s : Scheduler) (j : Job) :
    Scheduler × Except SchedulerErrorKind Unit :=
  if s.jobs.any (fun x => x.id == j.id) then
    ({ s with jobs := s.jobs.filter (fun x => !(x.id == j.id)) }, .ok ())
  else
    (s, .error .keyErrorRemove)

/-- Embedding of `Scheduler.delete_jobs` (`core.py` lines 193-222).  As in
`get_jobs`, the guard `tags is None or tags == {}` only fires for `None`:
an explicitly supplied empty set runs through `select_jobs_by_tag`. -/
def Scheduler.delete_jobs (s : Scheduler) (tags : Option (Finset String))
    (any_tag : Bool) : Nat × Scheduler :=
  match tags with
  | none => (s.jobs.length, { s with jobs := [] })
  | some t =>
    let to_delete := select_jobs_by_tag s.jobs t any_tag
    ( to_delete.length,
      { s with jobs :=
          s.jobs.filter (fun j => !((to_delete.map Job.id).contains j.id)) } )

/-- Per-job processing inside one tick, read off `Scheduler.__exec_jobs`
(`core.py` lines 236-264): the job is executed (`_exec`, incrementing its
attempts) and afterwards its next-due instant is recomputed from the tick
reference instant (`_calc_next_exec(ref_dt)`). -/
def processJob (cnd : Job → Int → Int) (ref : Int) (j : Job) : Job :=
  Job.calc_next_exec cnd j.execOnce ref

/-- Embedding of `Scheduler.__exec_jobs` (`core.py` lines 236-264) acting on
the selected job list: every selected job is executed (worker threading only
permutes the order of the opaque callback side effects, the per-job state
effect is the same), then each selected job gets its next-due instant
recomputed from `ref` and is deleted from the job set when it has no attempts
remaining; the returned count is the number of selected jobs. -/
def execJobsPriv (cnd : Job → Int → Int) (s : Scheduler) (ref : Int)
    (selected : List Job) : Nat × Scheduler :=
  let ids := selected.map Job.id
  let processed := s.jobs.map
    (fun j => if ids.contains j.id then processJob cnd ref j else j)
  let remaining := processed.filter
    (fun j => !(ids.contains j.id) || j.has_attempts_remaining)
  (selected.length, { s with jobs := remaining })

/-- The priority the tick computes for one job (`core.py` lines 296-305):
`priority_function(-job.timedelta(ref).total_seconds(), job, max_exec,
len(jobs))`. -/
def jobPrio (s : Scheduler) (ref : Int) (j : Job) : ℚ :=
  s.priority_function (-(j.timedelta ref)) j s.max_exec s.jobs.length

/-- Stable insertion of a job in front of the first strictly
lower-priority entry; models one step of Python `sorted(... , reverse=True)`,
which keeps equal-priority entries in iteration order. -/
def insertDesc (p : Job → ℚ) (j : Job) : List Job → List Job
  | [] => [j]
  | x :: xs => if p x ≤ p j then j :: x :: xs else x :: insertDesc p j xs

/-- Stable descending sort by priority, modelling
`sorted(job_priority, key=job_priority.get, reverse=True)`
(`core.py` line 307). -/
def sortDesc (p : Job → ℚ) : List Job → List Job
  | [] => []
  | j :: js => insertDesc p j (sortDesc p js)

/-- Embedding of the filtering comprehension of `core.py` lines 309-314:
walk the sorted list with its enumeration index and keep a job when
`(max_exec == 0 or idx < max_exec) and job_priority[job] > 0`. -/
def filterCapAux (maxExec : Nat) (p : Job → ℚ) : Nat → List Job → List Job
  | _, [] => []
  | idx, j :: js =>
    if (maxExec = 0 ∨ idx < maxExec) ∧ 0 < p j then
      j :: filterCapAux maxExec p (idx + 1) js
    else
      filterCapAux maxExec p (idx + 1) js

/-- The job list `exec_jobs` hands to `__exec_jobs` (`core.py` lines
290-315): with `force_exec_all` the whole job set in iteration order,
otherwise the sorted-and-filtered list built from the tick priorities. -/
def Scheduler.selectedJobs (s : Scheduler) (ref : Int) (force_exec_all : Bool) :
    List Job :=
  if force_exec_all then s.jobs
  else filterCapAux s.max_exec (jobPrio s ref) 0 (sortDesc (jobPrio s ref) s.jobs)

/-- Embedding of `Scheduler.exec_jobs` (`core.py` lines 266-315).  `ref` is
the single reference instant `dt.datetime.now(tz=self.__tzinfo)` snapshotted
at the start of the tick and used for every priority computation and every
next-due recompute of the tick. -/
def Scheduler.exec_jobs (cnd : Job → Int → Int) (s : Scheduler) (ref : Int)
    (force_exec_all : Bool) : Nat × Scheduler :=
  execJobsPriv cnd s ref (s.selectedJobs ref force_exec_all)

/-- Follows the words of the spec (section 4.4, step 3), as the refinement
target for `Scheduler.selectedJobs`: sort all jobs by priority descending,
keep in order the jobs with priority strictly greater than zero, and truncate
to the first `max_exec` of them when `max_exec != 0`. -/
def specSelectedJobs (s : Scheduler) (ref : Int) : List Job :=
  let positives :=
    (sortDesc (jobPrio s ref) s.jobs).filter (fun j => decide (0 < jobPrio s ref j))
  if s.max_exec = 0 then positives else positives.take s.max_exec

/-- Checks that a timing value is a `dt.timedelta`. -/
def TimingValue.isDuration : TimingValue → Bool
  | .duration _ => true
  | _ => false

/-- Checks that a timing value is a `dt.time`. -/
def TimingValue.isTimeOfDay : TimingValue → Bool
  | .timeOfDay _ => true
  | _ => false

/-- Checks that a timing value is a `Weekday` or a `(Weekday, dt.time)`
tuple. -/
def TimingValue.isWeeklyValue : TimingValue → Bool
  | .weekday _ => true
  | .weekdayTime _ _ => true
  | _ => false

/-- Modelled from the spec: the shape `TimingCyclic` checked by
`Scheduler.cyclic` — a duration or a list of durations (spec section 3,
CYCLIC timing). -/
def isCyclicTiming : TimingInput → Bool
  | .single v => v.isDuration
  | .listOf vs => vs.all TimingValue.isDuration

/-- Modelled from the spec: the shape `TimingDailyUnion` checked by
`Scheduler.minutely`, `Scheduler.hourly` and `Scheduler.daily` — a
time-of-day or a list of times-of-day (spec section 3). -/
def isDailyTiming : TimingInput → Bool
  | .single v => v.isTimeOfDay
  | .listOf vs => vs.all TimingValue.isTimeOfDay

/-- Modelled from the spec: the shape `TimingWeeklyUnion` checked by
`Scheduler.weekly` — a weekday, a (weekday, time) tuple, or a list of such
(spec section 3, WEEKLY timing; bare weekdays default the time to
midnight). -/
def isWeeklyTiming : TimingInput → Bool
  | .single v => v.isWeeklyValue
  | .listOf vs => vs.all TimingValue.isWeeklyValue

/-- The shape `TimingOnceUnion` checked by `Scheduler.once`
(`ONCE_TYPE_ERROR_MSG` in `core.py` names it):
`dt.datetime | dt.timedelta | Weekday | dt.time` — a single value, never a
list or a tuple. -/
def isOnceTiming : TimingInput → Bool
  | .single (.duration _) => true
  | .single (.timeOfDay _) => true
  | .single (.weekday _) => true
  | .single (.datetimeValue _) => true
  | _ => false

/-- The keyword arguments a registration call can pass down to the `Job`
constructor, with the defaults of `scheduler/job.py` modelled from the spec
(`max_attempts = 0` means unlimited, `weight` defaults to 1 as in
`Scheduler.once`, `delay` defaults to true).  The positional and keyword
callback payloads are opaque to the core and folded into `handle`. -/
structure JobKwargs where
  max_attempts : Nat := 0
  tags : Finset String := ∅
  weight : ℚ := 1
  delay : Bool := true
  start : Option Int := none
  stop : Option Int := none
deriving DecidableEq

/-- Embedding of `Scheduler.__schedule` (`core.py` lines 351-374): wrap a
bare timing value into a one-element list, construct the `Job` with the
scheduler tzinfo and a fresh identity, and add it to the job set if it has
attempts remaining.  The initial next-due computation of the `Job`
constructor lives in `scheduler/job.py`; no claim depends on the initial
value, so it is fixed to 0 here. -/
def Scheduler.schedule (s : Scheduler) (job_type : JobType)
    (timing : TimingInput) (handle : Nat) (kw : JobKwargs) : Scheduler × Job :=
  let timing_list :=
    match timing with
    | .single v => [v]
    | .listOf vs => vs
  let job : Job :=
    { id := s.nextId, job_type := job_type, timing := timing_list,
      handle := handle, weight := kw.weight, tags := kw.tags,
      max_attempts := kw.max_attempts, attempts := 0, delay := kw.delay,
      start := kw.start, stop := kw.stop, tzinfo := s.tzinfo, nextDue := 0 }
  if job.has_attempts_remaining then
    ({ s with jobs := s.jobs ++ [job], nextId := s.nextId + 1 }, job)
  else
    ({ s with nextId := s.nextId + 1 }, job)

/-- Embedding of `Scheduler.cyclic` (`core.py` lines 376-412): reject a
timing that is not of shape `TimingCyclic` with the cyclic type error,
otherwise schedule a CYCLIC job. -/
def Scheduler.cyclic (s : Scheduler) (timing : TimingInput) (handle : Nat)
    (kw : JobKwargs) : Scheduler × Except SchedulerErrorKind Job :=
  if isCyclicTiming timing then
    let p := s.schedule .CYCLIC timing handle kw
    (p.1, .ok p.2)
  else
    (s, .error .cyclicTypeError)

/-- Embedding of `Scheduler.minutely` (`core.py` lines 414-455). -/
def Scheduler.minutely (s : Scheduler) (timing : TimingInput) (handle : Nat)
    (kw : JobKwargs) : Scheduler × Except SchedulerErrorKind Job :=
  if isDailyTiming timing then
    let p := s.schedule .MINUTELY timing handle kw
    (p.1, .ok p.2)
  else
    (s, .error .minutelyTypeError)

/-- Embedding of `Scheduler.hourly` (`core.py` lines 457-498). -/
def Scheduler.hourly (s : Scheduler) (timing : TimingInput) (handle : Nat)
    (kw : JobKwargs) : Scheduler × Except SchedulerErrorKind Job :=
  if isDailyTiming timing then
    let p := s.schedule .HOURLY timing handle kw
    (p.1, .ok p.2)
  else
    (s, .error .hourlyTypeError)

/-- Embedding of `Scheduler.daily` (`core.py` lines 500-536). -/
def Scheduler.daily (s : Scheduler) (timing : TimingInput) (handle : Nat)
    (kw : JobKwargs) : Scheduler × Except SchedulerErrorKind Job :=
  if isDailyTiming timing then
    let p := s.schedule .DAILY timing handle kw
    (p.1, .ok p.2)
  else
    (s, .error .dailyTypeError)

/-- Embedding of `Scheduler.weekly` (`core.py` lines 538-576). -/
def Scheduler.weekly (s : Scheduler) (timing : TimingInput) (handle : Nat)
    (kw : JobKwargs) : Scheduler × Except SchedulerErrorKind Job :=
  if isWeeklyTiming timing then
    let p := s.schedule .WEEKLY timing handle kw
    (p.1, .ok p.2)
  else
    (s, .error .weeklyTypeError)

/-- Embedding of `JOB_TYPE_MAPPING` (`core.py` lines 36-46): the dict
mapping the runtime type of a `once` timing to the stored job type
(`dt.timedelta` to CYCLIC, `dt.time` to DAILY, every weekday trigger to
WEEKLY); `none` models a missing key. -/
def JOB_TYPE_MAPPING : TimingValue → Option JobType
  | .duration _ => some .CYCLIC
  | .timeOfDay _ => some .DAILY
  | .weekday _ => some .WEEKLY
  | _ => none

/-- Embedding of `Scheduler.once` (`core.py` lines 578-636): a timing outside
`TimingOnceUnion` (a list, or a (weekday, time) tuple, which has no entry in
`JOB_TYPE_MAPPING`) is rejected with the once type error; a `dt.datetime`
timing schedules a CYCLIC job with timing `dt.timedelta()` (a zero
duration), `delay=False`, `start` equal to that datetime and
`max_attempts=1`; any other accepted value schedules a job of the mapped
type with `max_attempts=1`. -/
def Scheduler.once (s : Scheduler) (timing : TimingInput) (handle : Nat)
    (tags : Finset String) (weight : ℚ) :
    Scheduler × Except SchedulerErrorKind Job :=
  match timing with
  | .single (.datetimeValue d) =>
    let p := s.schedule .CYCLIC (.single (.duration 0)) handle
      { max_attempts := 1, tags := tags, weight := weight, delay := false,
        start := some d }
    (p.1, .ok p.2)
  | .single v =>
    match JOB_TYPE_MAPPING v with
    | some jt =>
      let p := s.schedule jt (.single v) handle
        { max_attempts := 1, tags := tags, weight := weight }
      (p.1, .ok p.2)
    | none => (s, .error .onceTypeError)
  | .listOf _ => (s, .error .onceTypeError)

/-- A heap of Python set objects holding job identities; the address of a set
object is its index, appending allocates.  This models the object level of
`Scheduler.get_jobs` and the `Scheduler.jobs` property, whose bodies are
`return self.__jobs.copy()`. -/
abbrev SetHeap : Type := List (Finset Nat)

/-- The contents of the set object at address `a`. -/
def heapGet (h : SetHeap) (a : Nat) : Finset Nat :=
  List.getD h a ∅

/-- Overwrite the contents of the set object at address `a`. -/
def heapSet (h : SetHeap) (a : Nat) (v : Finset Nat) : SetHeap :=
  List.set h a v

/-- A mutation a caller can apply to a returned set object:
`set.add(x)` or `set.remove(x)` / `set.discard(x)`. -/
inductive SetOp
  | add (x : Nat)
  | remove (x : Nat)
deriving DecidableEq

/-- Apply one mutation to the set object at address `a`. -/
def applyOp (h : SetHeap) (a : Nat) : SetOp → SetHeap
  | .add x => heapSet h a (insert x (heapGet h a))
  | .remove x => heapSet h a ((heapGet h a).erase x)

/-- Apply a sequence of mutations, all to the set object at address `a`. -/
def applyOps (a : Nat) : SetHeap → List SetOp → SetHeap
  | h, [] => h
  | h, op :: ops => applyOps a (applyOp h a op) ops

/-- Object-level embedding of `return self.__jobs.copy()` (`core.py` lines
333-336 and 348-349): allocate a fresh set object with the same elements as
the internal set at `jobsAddr` and return its address. -/
def getJobsHeap (h : SetHeap) (jobsAddr : Nat) : SetHeap × Nat :=
  (h ++ [heapGet h jobsAddr], h.length)

/-- Object-level embedding of the `select_jobs_by_tag` branch of `get_jobs`
(`core.py` lines 336 and 49-56): the set comprehension allocates a fresh set
object - holding whatever subset of job identities the tag filter selected,
which is why the contents `v` are arbitrary here - and returns its
address. -/
def allocFresh (h : SetHeap) (v : Finset Nat) : SetHeap × Nat :=
  (h ++ [v], h.length)

/-- A concrete linear priority function for witnesses: the overdue seconds
themselves. -/
def pfW : Int → Job → Nat → Nat → ℚ := fun overdue _ _ _ => (overdue : ℚ)

/-- A concrete next-due recompute for witnesses. -/
def cndW : Job → Int → Int := fun _ _ => 10

/-- Concrete job for witnesses: a single attempt allowed, tagged, one second
overdue at reference instant 0. -/
def jW : Job :=
  { id := 0, job_type := .CYCLIC, timing := [.duration 5], handle := 0,
    weight := 1, tags := {"a"}, max_attempts := 1, attempts := 0,
    delay := true, start := none, stop := none, tzinfo := none, nextDue := -1 }

/-- Concrete job for witnesses: unlimited attempts, untagged, two seconds
overdue at reference instant 0. -/
def jK : Job :=
  { id := 1, job_type := .CYCLIC, timing := [.duration 5], handle := 0,
    weight := 1, tags := ∅, max_attempts := 0, attempts := 0,
    delay := true, start := none, stop := none, tzinfo := none, nextDue := -2 }

/-- A job identity that is not registered in `sW`. -/
def jMissing : Job :=
  { jW with id := 99 }

/-- Concrete scheduler for witnesses, holding `jW` and `jK`. -/
def sW : Scheduler :=
  { max_exec := 0, tzinfo := none, priority_function := pfW,
    jobs := [jW, jK], n_threads := 1, nextId := 2 }

/-- The survivor of one tick of `sW` at reference instant 0: `jK` after
execution and next-due recompute. -/
def survivorW : Job := processJob cndW 0 jK

/-- Concrete heap with a single set object for the copy-semantics witness. -/
def hW : SetHeap := [{0}]

theorem mem_insertDesc {p : Job → ℚ} {j x : Job} {l : List Job} :
    x ∈ insertDesc p j l ↔ x = j ∨ x ∈ l := by
  induction l with
  | nil => simp [insertDesc]
  | cons y ys ih =>
    by_cases hc : p y ≤ p j
    · simp [insertDesc, hc]
    · simp only [insertDesc, if_neg hc, List.mem_cons, ih]
      tauto

theorem pairwise_insertDesc {p : Job → ℚ} {j : Job} {l : List Job}
    (h : l.Pairwise fun a b => p b ≤ p a) :
    (insertDesc p j l).Pairwise fun a b => p b ≤ p a := by
  induction l with
  | nil => simp [insertDesc]
  | cons y ys ih =>
    rcases List.pairwise_cons.mp h with ⟨hy, hys⟩
    by_cases hc : p y ≤ p j
    · rw [insertDesc, if_pos hc]
      refine List.pairwise_cons.mpr ⟨?_, h⟩
      intro b hb
      rcases List.mem_cons.mp hb with rfl | hb
      · exact hc
      · exact le_trans (hy b hb) hc
    · rw [insertDesc, if_neg hc]
      refine List.pairwise_cons.mpr ⟨?_, ih hys⟩
      intro b hb
      rcases mem_insertDesc.mp hb with rfl | hb
      · exact (not_le.mp hc).le
      · exact hy b hb

theorem pairwise_sortDesc (p : Job → ℚ) (l : List Job) :
    (sortDesc p l).Pairwise fun a b => p b ≤ p a := by
  induction l with
  | nil => exact List.Pairwise.nil
  | cons j js ih => exact pairwise_insertDesc ih

theorem filter_pos_eq_takeWhile {p : Job → ℚ} {l : List Job}
    (h : l.Pairwise fun a b => p b ≤ p a) :
    l.filter (fun j => decide (0 < p j)) = l.takeWhile (fun j => decide (0 < p j)) := by
  induction l with
  | nil => rfl
  | cons j js ih =>
    rcases List.pairwise_cons.mp h with ⟨hj, hjs⟩
    by_cases hp : 0 < p j
    · rw [List.filter_cons_of_pos (by simpa using hp),
        List.takeWhile_cons_of_pos (by simpa using hp), ih hjs]
    · rw [List.filter_cons_of_neg (by simpa using hp),
        List.takeWhile_cons_of_neg (by simpa using hp)]
      rw [List.filter_eq_nil_iff]
      intro b hb
      simp only [decide_eq_true_eq]
      exact fun hb0 => hp (lt_of_lt_of_le hb0 (hj b hb))

theorem takeWhile_pos_nil {p : Job → ℚ} {j : Job} {js : List Job}
    (hp : ¬ 0 < p j) (hj : ∀ b ∈ js, p b ≤ p j) :
    js.takeWhile (fun b => decide (0 < p b)) = [] := by
  cases js with
  | nil => rfl
  | cons b t =>
    refine List.takeWhile_cons_of_neg ?_
    simp only [decide_eq_true_eq]
    exact fun hb => hp (lt_of_lt_of_le hb (hj b (List.mem_cons_self b t)))

theorem filterCapAux_eq {p : Job → ℚ} {l : List Job}
    (h : l.Pairwise fun a b => p b ≤ p a) (m : Nat) :
    ∀ i, filterCapAux m p i l =
      (l.takeWhile fun j => decide (0 < p j)).take
        (if m = 0 then l.length else m - i) := by
  induction l with
  | nil => intro i; simp [filterCapAux]
  | cons j js ih =>
    intro i
    rcases List.pairwise_cons.mp h with ⟨hj, hjs⟩
    by_cases hp : 0 < p j
    · rw [List.takeWhile_cons_of_pos (by simpa using hp)]
      by_cases hm : m = 0
      · subst hm
        rw [filterCapAux, if_pos ⟨Or.inl rfl, hp⟩, ih hjs (i + 1)]
        simp [List.take_succ_cons]
      · by_cases hi : i < m
        · rw [filterCapAux, if_pos ⟨Or.inr hi, hp⟩, ih hjs (i + 1), if_neg hm,
            if_neg hm]
          have hsub : m - i = (m - (i + 1)) + 1 := by omega
          rw [hsub, List.take_succ_cons]
        · have hcond : ¬ ((m = 0 ∨ i < m) ∧ 0 < p j) := by
            rintro ⟨h0 | hlt, -⟩
            · exact hm h0
            · exact hi hlt
          rw [filterCapAux, if_neg hcond, ih hjs (i + 1), if_neg hm, if_neg hm]
          have h1 : m - (i + 1) = 0 := by omega
          have h2 : m - i = 0 := by omega
          rw [h1, h2, List.take_zero, List.take_zero]
    · rw [List.takeWhile_cons_of_neg (by simpa using hp)]
      rw [filterCapAux, if_neg (fun hcon => hp hcon.2), ih hjs (i + 1),
        takeWhile_pos_nil hp hj]
      simp

theorem mem_filterCapAux {m : Nat} {p : Job → ℚ} {x : Job} :
    ∀ {i : Nat} {l : List Job}, x ∈ filterCapAux m p i l → 0 < p x := by
  intro i l
  induction l generalizing i with
  | nil => intro hx; simp [filterCapAux] at hx
  | cons j js ih =>
    intro hx
    rw [filterCapAux] at hx
    split at hx
    · rcases List.mem_cons.mp hx with rfl | hx
      · rename_i hcond
        exact hcond.2
      · exact ih hx
    · exact ih hx

theorem selectedJobs_false_eq_spec (s : Scheduler) (ref : Int) :
    s.selectedJobs ref false = specSelectedJobs s ref := by
  have hpw := pairwise_sortDesc (jobPrio s ref) s.jobs
  rw [Scheduler.selectedJobs, if_neg (by simp)]
  simp only [specSelectedJobs]
  rw [filterCapAux_eq hpw s.max_exec 0, ← filter_pos_eq_takeWhile hpw]
  by_cases hm : s.max_exec = 0
  · rw [if_pos hm, if_pos hm]
    exact List.take_of_length_le (List.length_filter_le _ _)
  · rw [if_neg hm, if_neg hm, Nat.sub_zero]

/-- C1: a tick with `force_exec_all = false` uses the single snapshotted
reference instant `ref` throughout, computes for every registered job the
priority `priority_function(-timedelta(ref), job, max_exec, |jobs|)`
(`jobPrio`), and dispatches exactly the jobs of positive priority in
descending priority order, truncated to the first `max_exec` of them when
`max_exec != 0` and untruncated when `max_exec == 0` (`specSelectedJobs`),
returning the number of dispatched jobs as the first component. -/
theorem claim_C1_tick_selection (cnd : Job → Int → Int) (s : Scheduler)
    (ref : Int) :
    s.selectedJobs ref false = specSelectedJobs s ref ∧
    s.exec_jobs cnd ref false =
      ((specSelectedJobs s ref).length,
        (execJobsPriv cnd s ref (specSelectedJobs s ref)).2) := by
  refine ⟨selectedJobs_false_eq_spec s ref, ?_⟩
  rw [Scheduler.exec_jobs, selectedJobs_false_eq_spec]
  rfl

/-- C5: in a tick with `force_exec_all = false` a job whose computed priority
is not strictly positive is never dispatched, whatever the value of
`max_exec`; with `force_exec_all = true` every registered job is dispatched,
ignoring both the job timers and the execution cap. -/
theorem claim_C5_priority_gate (cnd : Job → Int → Int) (s : Scheduler)
    (ref : Int) :
    (∀ j ∈ s.selectedJobs ref false, 0 < jobPrio s ref j) ∧
    s.selectedJobs ref true = s.jobs ∧
    s.exec_jobs cnd ref true = execJobsPriv cnd s ref s.jobs := by
  refine ⟨?_, rfl, rfl⟩
  intro j hj
  rw [Scheduler.selectedJobs, if_neg (by simp)] at hj
  exact mem_filterCapAux hj

/-- Witness for C5 at a concrete scheduler: the overdue job `jW` is among the
dispatched jobs of a non-forced tick of `sW`, and its priority is indeed
positive. -/
theorem claim_C5_priority_gate_witness : 0 < jobPrio sW 0 jW :=
  (claim_C5_priority_gate cndW sW 0).1 jW (by decide)

/-- C2: in any tick, when a registered job `j` with `max_attempts = N > 0` is
dispatched for its N-th time (its attempt counter stands at N-1 before the
tick), it is absent from `get_jobs()` afterwards; moreover every job of the
resulting set that was dispatched is exactly its old self executed once and
with its next-due instant recomputed from the single tick reference instant
(`processJob`), and it survived only because it still has attempts
remaining. -/
theorem claim_C2_attempt_exhaustion (cnd : Job → Int → Int) (s : Scheduler)
    (ref : Int) (force : Bool) (j : Job)
    (hnd : (s.jobs.map Job.id).Nodup)
    (hj : j ∈ s.jobs)
    (hsel : j ∈ s.selectedJobs ref force)
    (hmax : j.max_attempts ≠ 0)
    (hatt : j.attempts + 1 = j.max_attempts) :
    (∀ j' ∈ (s.exec_jobs cnd ref force).2.get_jobs none false, j'.id ≠ j.id) ∧
    (∀ j' ∈ (s.exec_jobs cnd ref force).2.jobs,
      j'.id ∈ (s.selectedJobs ref force).map Job.id →
      ∃ j0 ∈ s.jobs, j0.id = j'.id ∧ j' = processJob cnd ref j0 ∧
        j'.has_attempts_remaining = true) := by
  have hcontains : ((s.selectedJobs ref force).map Job.id).contains j.id = true :=
    List.elem_iff.mpr (List.mem_map_of_mem Job.id hsel)
  constructor
  · intro j' hj' heq
    have hj'' : j' ∈ (s.exec_jobs cnd ref force).2.jobs := hj'
    simp only [Scheduler.exec_jobs, execJobsPriv] at hj''
    rcases List.mem_filter.mp hj'' with ⟨hmem, hkeep⟩
    rcases List.mem_map.mp hmem with ⟨x, hx, hfx⟩
    by_cases hc : ((s.selectedJobs ref force).map Job.id).contains x.id = true
    · rw [if_pos hc] at hfx
      have hxid : x.id = j.id := by rw [← heq, ← hfx]; rfl
      have hxj : x = j := List.inj_on_of_nodup_map hnd hx hj hxid
      have hcid : ((s.selectedJobs ref force).map Job.id).contains j'.id = true := by
        rw [heq]; exact hcontains
      simp only [hcid, Bool.not_true, Bool.false_or] at hkeep
      rw [← hfx] at hkeep
      simp only [processJob, Job.execOnce, Job.calc_next_exec,
        Job.has_attempts_remaining, Bool.or_eq_true, beq_iff_eq,
        decide_eq_true_eq] at hkeep
      subst hxj
      rcases hkeep with h0 | hlt
      · exact hmax h0
      · omega
    · rw [if_neg hc] at hfx
      apply hc
      rw [hfx, heq]
      exact hcontains
  · intro j' hj' hid
    simp only [Scheduler.exec_jobs, execJobsPriv] at hj'
    rcases List.mem_filter.mp hj' with ⟨hmem, hkeep⟩
    rcases List.mem_map.mp hmem with ⟨x, hx, hfx⟩
    have hcid : ((s.selectedJobs ref force).map Job.id).contains j'.id = true :=
      List.elem_iff.mpr hid
    by_cases hc : ((s.selectedJobs ref force).map Job.id).contains x.id = true
    · rw [if_pos hc] at hfx
      refine ⟨x, hx, ?_, hfx.symm, ?_⟩
      · rw [← hfx]; rfl
      · simp only [hcid, Bool.not_true, Bool.false_or] at hkeep
        exact hkeep
    · exfalso
      rw [if_neg hc] at hfx
      apply hc
      rw [hfx]
      exact hcid

/-- Witness for C2 at the concrete scheduler `sW` at reference instant 0:
`jW` (one attempt allowed, one second overdue) is dispatched and removed,
while the surviving job is `jK` executed once with its next-due instant
recomputed. -/
theorem claim_C2_attempt_exhaustion_witness :
    survivorW.id ≠ jW.id ∧
    ∃ j0 ∈ sW.jobs, j0.id = survivorW.id ∧
      survivorW = processJob cndW 0 j0 ∧
      survivorW.has_attempts_remaining = true := by
  have h := claim_C2_attempt_exhaustion cndW sW 0 false jW (by decide)
    (by decide) (by decide) (by decide) (by decide)
  exact ⟨h.1 survivorW (by decide), h.2 survivorW (by decide) (by decide)⟩

/-- C3, evaluation at the failing input: on the concrete scheduler `sW`
(holding two jobs), `get_jobs` with an explicitly supplied empty tag set and
`any_tag = true` returns the empty set, not all jobs: in the source the
guard `tags is None or tags == {}` compares the set `tags` against an empty
dict, which is always false, so the empty set falls through to the
intersection filter of `select_jobs_by_tag`, contradicting the claim and the
docstring of `get_jobs`.  With `tags` absent (`none`) all jobs are
returned. -/
theorem claim_C3_empty_tags_any_tag_eval :
    sW.get_jobs (some ∅) true = [] ∧
    sW.get_jobs none true = [jW, jK] ∧
    sW.jobs = [jW, jK] := by
  refine ⟨by decide, rfl, rfl⟩

/-- C4, evaluation at the failing input: on the concrete scheduler `sW`,
`delete_jobs` with an explicitly supplied empty tag set and `any_tag = true`
removes nothing and returns 0 instead of clearing the schedule and returning
the prior count 2, for the same `tags == {}` reason as in `get_jobs`; with
`tags` absent (`none`) the whole schedule is cleared and the prior count is
returned. -/
theorem claim_C4_empty_tags_any_tag_eval :
    (sW.delete_jobs (some ∅) true).1 = 0 ∧
    (sW.delete_jobs (some ∅) true).2.jobs = [jW, jK] ∧
    sW.jobs.length = 2 ∧
    (sW.delete_jobs none true).1 = 2 ∧
    (sW.delete_jobs none true).2.jobs = [] := by
  refine ⟨by decide, by decide, rfl, rfl, rfl⟩

/-- C6: each registration method rejects a timing value that does not have
the shape required by its discipline with that discipline's own
SchedulerError (whose message names the expected type union), and the
returned scheduler state - in particular its job set - is exactly the state
before the call. -/
theorem claim_C6_registration_validation (s : Scheduler) (timing : TimingInput)
    (handle : Nat) (kw : JobKwargs) (tags : Finset String) (weight : ℚ) :
    (isCyclicTiming timing = false →
      s.cyclic timing handle kw = (s, .error .cyclicTypeError)) ∧
    (isDailyTiming timing = false →
      s.minutely timing handle kw = (s, .error .minutelyTypeError)) ∧
    (isDailyTiming timing = false →
      s.hourly timing handle kw = (s, .error .hourlyTypeError)) ∧
    (isDailyTiming timing = false →
      s.daily timing handle kw = (s, .error .dailyTypeError)) ∧
    (isWeeklyTiming timing = false →
      s.weekly timing handle kw = (s, .error .weeklyTypeError)) ∧
    (isOnceTiming timing = false →
      s.once timing handle tags weight = (s, .error .onceTypeError)) := by
  refine ⟨?_, ?_, ?_, ?_, ?_, ?_⟩
  · intro h; rw [Scheduler.cyclic, if_neg (by simp [h])]
  · intro h; rw [Scheduler.minutely, if_neg (by simp [h])]
  · intro h; rw [Scheduler.hourly, if_neg (by simp [h])]
  · intro h; rw [Scheduler.daily, if_neg (by simp [h])]
  · intro h; rw [Scheduler.weekly, if_neg (by simp [h])]
  · intro h
    cases timing with
    | single v =>
      cases v with
      | duration d => simp [isOnceTiming] at h
      | timeOfDay t => simp [isOnceTiming] at h
      | weekday w => simp [isOnceTiming] at h
      | weekdayTime w t => rfl
      | datetimeValue d => simp [isOnceTiming] at h
    | listOf vs => rfl

/-- Witness for C6: each registration method of the concrete scheduler `sW`,
applied to a concretely ill-shaped timing value, answers with its own error
and the unchanged scheduler. -/
theorem claim_C6_registration_validation_witness :
    sW.cyclic (.single (.timeOfDay 3)) 0 {} = (sW, .error .cyclicTypeError) ∧
    sW.minutely (.single (.duration 1)) 0 {} = (sW, .error .minutelyTypeError) ∧
    sW.hourly (.single (.duration 1)) 0 {} = (sW, .error .hourlyTypeError) ∧
    sW.daily (.single (.duration 1)) 0 {} = (sW, .error .dailyTypeError) ∧
    sW.weekly (.single (.duration 1)) 0 {} = (sW, .error .weeklyTypeError) ∧
    sW.once (.listOf []) 0 ∅ 1 = (sW, .error .onceTypeError) :=
  ⟨(claim_C6_registration_validation sW (.single (.timeOfDay 3)) 0 {} ∅ 1).1
      (by decide),
   (claim_C6_registration_validation sW (.single (.duration 1)) 0 {} ∅ 1).2.1
      (by decide),
   (claim_C6_registration_validation sW (.single (.duration 1)) 0 {} ∅ 1).2.2.1
      (by decide),
   (claim_C6_registration_validation sW (.single (.duration 1)) 0 {} ∅ 1).2.2.2.1
      (by decide),
   (claim_C6_registration_validation sW (.single (.duration 1)) 0 {} ∅ 1).2.2.2.2.1
      (by decide),
   (claim_C6_registration_validation sW (.listOf []) 0 {} ∅ 1).2.2.2.2.2
      (by decide)⟩

/-- C7: `once` with a datetime timing creates a CYCLIC job with the zero
interval as its only timing value, `delay = false`, `start` equal to that
datetime and `max_attempts = 1`; with a duration timing it creates a CYCLIC
job, with a time-of-day timing a DAILY job, and with a weekday timing a
WEEKLY job, each with `max_attempts = 1`. -/
theorem claim_C7_once_mapping (s : Scheduler) (d secs : Int) (t : Nat)
    (w : Weekday) (handle : Nat) (tags : Finset String) (weight : ℚ) :
    (∃ jb, (s.once (.single (.datetimeValue d)) handle tags weight).2 = .ok jb ∧
      jb.job_type = .CYCLIC ∧ jb.timing = [.duration 0] ∧ jb.delay = false ∧
      jb.start = some d ∧ jb.max_attempts = 1) ∧
    (∃ jb, (s.once (.single (.duration secs)) handle tags weight).2 = .ok jb ∧
      jb.job_type = .CYCLIC ∧ jb.max_attempts = 1) ∧
    (∃ jb, (s.once (.single (.timeOfDay t)) handle tags weight).2 = .ok jb ∧
      jb.job_type = .DAILY ∧ jb.max_attempts = 1) ∧
    (∃ jb, (s.once (.single (.weekday w)) handle tags weight).2 = .ok jb ∧
      jb.job_type = .WEEKLY ∧ jb.max_attempts = 1) :=
  ⟨⟨_, rfl, rfl, rfl, rfl, rfl, rfl⟩, ⟨_, rfl, rfl, rfl⟩,
   ⟨_, rfl, rfl, rfl⟩, ⟨_, rfl, rfl, rfl⟩⟩

/-- C8: `delete_job` on a registered job removes exactly that job (object
identity) and succeeds; on a job that is not registered it signals the
lookup error and returns the scheduler unchanged. -/
theorem claim_C8_delete_job (s : Scheduler) (j : Job) :
    (j ∈ s.jobs →
      (s.delete_job j).2 = .ok () ∧
      ∀ x, x ∈ (s.delete_job j).1.jobs ↔ x ∈ s.jobs ∧ x.id ≠ j.id) ∧
    ((∀ x ∈ s.jobs, x.id ≠ j.id) →
      s.delete_job j = (s, .error .keyErrorRemove)) := by
  constructor
  · intro hj
    have hany : (s.jobs.any fun x => x.id == j.id) = true :=
      List.any_eq_true.mpr ⟨j, hj, by simp⟩
    rw [Scheduler.delete_job, if_pos hany]
    refine ⟨rfl, ?_⟩
    intro x
    simp [List.mem_filter]
  · intro hall
    have hany : ¬ (s.jobs.any fun x => x.id == j.id) = true := by
      rw [List.any_eq_true]
      rintro ⟨x, hx, hbeq⟩
      exact hall x hx (by simpa using hbeq)
    rw [Scheduler.delete_job, if_neg hany]

/-- Witness for C8: deleting the registered job `jW` from `sW` succeeds and
removes exactly it; deleting the unregistered `jMissing` signals the lookup
error and leaves `sW` unchanged. -/
theorem claim_C8_delete_job_witness :
    ((sW.delete_job jW).2 = .ok () ∧
      ∀ x, x ∈ (sW.delete_job jW).1.jobs ↔ x ∈ sW.jobs ∧ x.id ≠ jW.id) ∧
    sW.delete_job jMissing = (sW, .error .keyErrorRemove) :=
  ⟨(claim_C8_delete_job sW jW).1 (by decide),
   (claim_C8_delete_job sW jMissing).2 (by decide)⟩

/-- C9: constructing a scheduler over an initial job set raises the
timezone-mismatch SchedulerError when some supplied job carries a tzinfo
different from the scheduler tzinfo; consequently a successfully constructed
scheduler holds exactly the supplied jobs and every one of them carries the
scheduler tzinfo. -/
theorem claim_C9_init_tz (max_exec : Nat) (tz : Option Int)
    (pf : Int → Job → Nat → Nat → ℚ) (jobs : List Job) (nt : Nat) :
    ((∃ jb ∈ jobs, jb.tzinfo ≠ tz) →
      schedulerInit max_exec tz pf jobs nt = .error .tzError) ∧
    (∀ s, schedulerInit max_exec tz pf jobs nt = .ok s →
      s.jobs = jobs ∧ ∀ jb ∈ s.jobs, jb.tzinfo = tz) := by
  constructor
  · rintro ⟨jb, hjb, hne⟩
    have hall : ¬ (jobs.all fun x => x.tzinfo == tz) = true := by
      rw [List.all_eq_true]
      intro hall
      exact hne (by simpa using hall jb hjb)
    rw [schedulerInit, if_neg hall]
  · intro s hs
    by_cases hall : (jobs.all fun x => x.tzinfo == tz) = true
    · rw [schedulerInit, if_pos hall] at hs
      have heq := Except.ok.inj hs
      subst heq
      refine ⟨rfl, ?_⟩
      intro jb hjb
      simpa using List.all_eq_true.mp hall jb hjb
    · rw [schedulerInit, if_neg hall] at hs
      exact Except.noConfusion hs

/-- Witness for C9: supplying the naive job `jW` to an aware scheduler is
rejected with the timezone error, while supplying it to a naive scheduler
succeeds with exactly that job set. -/
theorem claim_C9_init_tz_witness :
    schedulerInit 0 (some 1) pfW [jW] 1 = .error .tzError ∧
    ((⟨0, none, pfW, [jW], 1, 1⟩ : Scheduler).jobs = [jW] ∧
      ∀ jb ∈ (⟨0, none, pfW, [jW], 1, 1⟩ : Scheduler).jobs, jb.tzinfo = none) :=
  ⟨(claim_C9_init_tz 0 (some 1) pfW [jW] 1).1 ⟨jW, by decide, by decide⟩,
   (claim_C9_init_tz 0 none pfW [jW] 1).2 ⟨0, none, pfW, [jW], 1, 1⟩ rfl⟩

theorem heapGet_set_ne {h : SetHeap} {a b : Nat} (hne : a ≠ b)
    (v : Finset Nat) : heapGet (heapSet h a v) b = heapGet h b := by
  simp [heapGet, heapSet, List.getD_eq_getElem?_getD, List.getElem?_set_ne hne]

theorem applyOps_get_other {a b : Nat} (hne : a ≠ b) :
    ∀ (ops : List SetOp) (h : SetHeap),
      heapGet (applyOps a h ops) b = heapGet h b := by
  intro ops
  induction ops with
  | nil => intro h; rfl
  | cons op t ih =>
    intro h
    rw [applyOps, ih]
    cases op with
    | add x => exact heapGet_set_ne hne _
    | remove x => exact heapGet_set_ne hne _

theorem heapGet_append_lt {h : SetHeap} {a : Nat} (ha : a < h.length)
    (l : SetHeap) : heapGet (h ++ l) a = heapGet h a := by
  simp [heapGet, List.getD_eq_getElem?_getD, List.getElem?_append, ha]

theorem heapGet_concat_length (h : SetHeap) (v : Finset Nat) :
    heapGet (h ++ [v]) h.length = v := by
  simp [heapGet, List.getD_eq_getElem?_getD, List.getElem?_concat_length]

/-- C10, counterexample: on the concrete scheduler `sW`, `get_jobs` with an
explicitly supplied empty tag set and `any_tag = true` does not return a copy
of the internal job set (the `jobs` property): the `tags == {}` guard never
fires for a real set, so the empty set reaches the intersection filter and
the returned set is empty while the internal set holds two jobs. -/
theorem claim_C10_empty_tags_not_copy :
    sW.get_jobs (some ∅) true ≠ sW.jobsProperty := by
  decide

/-- C10, amended: `get_jobs()` with absent tags and the `jobs` property
return a copy of the internal job set; with an explicitly supplied empty tag
set the returned set is a freshly built set that equals the internal job set
when `any_tag` is false but is empty when `any_tag` is true.  In every case
the returned set is a freshly allocated set object at an address distinct
from the internal set, so adding elements to or removing elements from the
returned set leaves the scheduler's registered job set unchanged. -/
theorem claim_C10_get_jobs_fresh (s : Scheduler) (any_tag : Bool)
    (h : SetHeap) (jobsAddr : Nat) (v : Finset Nat)
    (hlt : jobsAddr < h.length) :
    s.get_jobs none any_tag = s.jobs ∧
    s.jobsProperty = s.jobs ∧
    s.get_jobs (some ∅) false = s.jobs ∧
    s.get_jobs (some ∅) true = [] ∧
    heapGet (getJobsHeap h jobsAddr).1 (getJobsHeap h jobsAddr).2 =
      heapGet h jobsAddr ∧
    (getJobsHeap h jobsAddr).2 ≠ jobsAddr ∧
    (∀ ops : List SetOp,
      heapGet (applyOps (getJobsHeap h jobsAddr).2 (getJobsHeap h jobsAddr).1 ops)
        jobsAddr = heapGet h jobsAddr) ∧
    (∀ ops : List SetOp,
      heapGet (applyOps (allocFresh h v).2 (allocFresh h v).1 ops) jobsAddr =
        heapGet h jobsAddr) := by
  refine ⟨rfl, rfl, ?_, ?_, heapGet_concat_length h _, ne_of_gt hlt, ?_, ?_⟩
  · show List.filter (fun j => decide (∅ ⊆ j.tags)) s.jobs = s.jobs
    rw [List.filter_eq_self]
    intro a _
    simp
  · show List.filter (fun j => decide ((∅ : Finset String) ∩ j.tags ≠ ∅)) s.jobs = []
    rw [List.filter_eq_nil_iff]
    intro a _
    simp
  · intro ops
    show heapGet (applyOps h.length (h ++ [heapGet h jobsAddr]) ops) jobsAddr =
      heapGet h jobsAddr
    rw [applyOps_get_other (ne_of_gt hlt) ops]
    exact heapGet_append_lt hlt _
  · intro ops
    show heapGet (applyOps h.length (h ++ [v]) ops) jobsAddr = heapGet h jobsAddr
    rw [applyOps_get_other (ne_of_gt hlt) ops]
    exact heapGet_append_lt hlt _

/-- Witness for the amended C10: on the concrete scheduler `sW` and the
one-object heap `hW`, both `get_jobs` branches behave as stated, the copy has
the same elements at a fresh address, and concrete mutations on either
returned object leave the internal set untouched. -/
theorem claim_C10_get_jobs_fresh_witness :
    sW.get_jobs none true = sW.jobs ∧
    sW.jobsProperty = sW.jobs ∧
    sW.get_jobs (some ∅) false = sW.jobs ∧
    sW.get_jobs (some ∅) true = [] ∧
    heapGet (getJobsHeap hW 0).1 (getJobsHeap hW 0).2 = heapGet hW 0 ∧
    (getJobsHeap hW 0).2 ≠ 0 ∧
    heapGet (applyOps (getJobsHeap hW 0).2 (getJobsHeap hW 0).1
      [SetOp.add 5, SetOp.remove 0]) 0 = heapGet hW 0 ∧
    heapGet (applyOps (allocFresh hW {7}).2 (allocFresh hW {7}).1
      [SetOp.remove 7]) 0 = heapGet hW 0 := by
  have h := claim_C10_get_jobs_fresh sW true hW 0 {7} (by decide)
  exact ⟨h.1, h.2.1, h.2.2.1, h.2.2.2.1, h.2.2.2.2.1, h.2.2.2.2.2.1,
    h.2.2.2.2.2.2.1 [SetOp.add 5, SetOp.remove 0],
    h.2.2.2.2.2.2.2 [SetOp.remove 7]⟩

end Sched
